import Mathlib

/-
Verification development for the MirrorOne repository.

The repository couples a FastAPI scrape/resolution backend with a Next.js
frontend.  The frontend TypeScript under src/frontend and the dashboard pages
are embedded directly from their sources; the backend ResourceCatalog,
ScrapeOrchestrator and ResolutionEngine are present in the repository only
through their documentation and callers, so those parts are modelled from the
specification text, each such definition marked `Modelled from the spec:` in
its doc comment.
-/

namespace MirrorOne

/-! ## Data model -/

/-- Modelled from the spec: a Resource is one downloadable artifact with a
`source` family, globally unique `file_name` lookup key, upstream `url`,
optional normalized `version` string and an `updated_at` timestamp (modelled
as a natural number). -/
structure Resource where
  source : String
  file_name : String
  url : String
  version : Option String
  updated_at : Nat
deriving DecidableEq, Repr

/-! ## Version ordering (spec 4.4)

Numeric dot-separated segments compare component-wise as integers; a missing
version sorts lowest; on a tie the most recent `updated_at` wins. -/

/-- Splits a character list at every dot, keeping the dot-free segments. -/
def splitDots : List Char → List (List Char)
  | [] => [[]]
  | c :: cs =>
    let r := splitDots cs
    if c = '.' then [] :: r
    else
      match r with
      | [] => [[c]]
      | seg :: rest => (c :: seg) :: rest

/-- Reads a digit segment as a natural number, most significant digit first. -/
def segToNat (seg : List Char) : Nat :=
  seg.foldl (fun acc c => acc * 10 + (c.toNat - 48)) 0

/-- Parses a normalized version string into its numeric segments. -/
def parseVersion (s : String) : List Nat :=
  (splitDots s.data).map segToNat

/-- Modelled from the spec: the comparison key of a record's version; a
missing version sorts lowest, so it maps to the empty segment list, which is
lexicographically below every nonempty one. -/
def verKey (r : Resource) : List Nat :=
  match r.version with
  | none => []
  | some v => parseVersion v

/-- Lexicographic component-wise comparison of version segment lists. -/
def cmpSegs : List Nat → List Nat → Ordering
  | [], [] => .eq
  | [], _ :: _ => .lt
  | _ :: _, [] => .gt
  | a :: as, b :: bs =>
    if a < b then .lt
    else if b < a then .gt
    else cmpSegs as bs

/-- Modelled from the spec: total comparison of two catalog records for the
`latest` selection; version segments first, `updated_at` breaks ties. -/
def cmpRes (x y : Resource) : Ordering :=
  match cmpSegs (verKey x) (verKey y) with
  | .lt => .lt
  | .gt => .gt
  | .eq =>
    if x.updated_at < y.updated_at then .lt
    else if y.updated_at < x.updated_at then .gt
    else .eq

/-! ## ResourceCatalog operations (spec 4.4)

The backend catalog is absent from src/, so the operations are modelled from
the specification: a catalog is the list of current records, `upsert` keys on
`file_name` with last-write-wins, `get_by_filename` is the primary lookup,
`latest` picks the highest version within a source. -/

/-- Modelled from the spec: upsert by `file_name`, replacing the existing
record with the same file name or appending a new one; the stored record's
`updated_at` is refreshed to the time `now` of the observing scrape. -/
def upsertAt (now : Nat) (r : Resource) : List Resource → List Resource
  | [] => [{ r with updated_at := max r.updated_at now }]
  | x :: xs =>
    if x.file_name = r.file_name then
      { r with updated_at := max r.updated_at now } :: xs
    else
      x :: upsertAt now r xs

/-- Modelled from the spec: lookup of the record carrying a file name. -/
def get_by_filename (cat : List Resource) (n : String) : Option Resource :=
  cat.find? (fun r => r.file_name = n)

/-- Modelled from the spec: all records of one source family. -/
def list_by_source (cat : List Resource) (s : String) : List Resource :=
  cat.filter (fun r => r.source = s)

/-- Keeps the better of two records under the catalog ordering, preferring
the earlier record on a full tie. -/
def pickBetter (a b : Resource) : Resource :=
  if cmpRes b a = .gt then b else a

/-- Modelled from the spec: the record of a source with the highest
normalized version, ties broken by the most recent `updated_at`. -/
def latest (cat : List Resource) (s : String) : Option Resource :=
  match list_by_source cat s with
  | [] => none
  | r :: rs => some (rs.foldl pickBetter r)

/-! ## Comparison laws -/

theorem cmpSegs_eq_iff : ∀ a b : List Nat, cmpSegs a b = .eq ↔ a = b := by
  intro a
  induction a with
  | nil => intro b; cases b <;> simp [cmpSegs]
  | cons x xs ih =>
    intro b
    cases b with
    | nil => simp [cmpSegs]
    | cons y ys =>
      simp only [cmpSegs]
      split_ifs with h1 h2
      · constructor
        · intro h; exact absurd h (by decide)
        · intro h
          injection h with hh _
          exact absurd h1 (by omega)
      · constructor
        · intro h; exact absurd h (by decide)
        · intro h
          injection h with hh _
          exact absurd h2 (by omega)
      · have hxy : x = y := by omega
        subst hxy
        rw [ih ys]
        simp

theorem cmpSegs_self (a : List Nat) : cmpSegs a a = .eq :=
  (cmpSegs_eq_iff a a).mpr rfl

theorem cmpSegs_gt_iff_lt : ∀ a b : List Nat, cmpSegs a b = .gt ↔ cmpSegs b a = .lt := by
  intro a
  induction a with
  | nil => intro b; cases b <;> simp [cmpSegs]
  | cons x xs ih =>
    intro b
    cases b with
    | nil => simp [cmpSegs]
    | cons y ys =>
      simp only [cmpSegs]
      rcases Nat.lt_trichotomy x y with h | h | h
      · rw [if_pos h, if_neg (by omega : ¬ y < x), if_pos h]
        decide
      · subst h
        simp only [if_neg (by omega : ¬ x < x)]
        exact ih ys
      · rw [if_neg (by omega : ¬ x < y), if_pos h, if_pos h]
        decide

theorem cmpSegs_gt_trans :
    ∀ a b c : List Nat, cmpSegs a b = .gt → cmpSegs b c = .gt → cmpSegs a c = .gt := by
  intro a
  induction a with
  | nil =>
    intro b c hab
    cases b <;> simp [cmpSegs] at hab
  | cons x xs ih =>
    intro b c hab hbc
    cases b with
    | nil => cases c <;> simp [cmpSegs] at hbc
    | cons y ys =>
      cases c with
      | nil => simp [cmpSegs]
      | cons z zs =>
        simp only [cmpSegs] at hab hbc ⊢
        rcases Nat.lt_trichotomy x y with h1 | h1 | h1
        · rw [if_pos h1] at hab
          exact absurd hab (by decide)
        · subst h1
          rw [if_neg (by omega : ¬ x < x), if_neg (by omega : ¬ x < x)] at hab
          rcases Nat.lt_trichotomy x z with h2 | h2 | h2
          · rw [if_pos h2] at hbc
            exact absurd hbc (by decide)
          · subst h2
            rw [if_neg (by omega : ¬ x < x), if_neg (by omega : ¬ x < x)] at hbc ⊢
            exact ih ys zs hab hbc
          · rw [if_neg (by omega : ¬ x < z), if_pos h2]
        · rcases Nat.lt_trichotomy y z with h2 | h2 | h2
          · rw [if_pos h2] at hbc
            exact absurd hbc (by decide)
          · subst h2
            rw [if_neg (by omega : ¬ x < y), if_pos h1]
          · rw [if_neg (by omega : ¬ x < z), if_pos (by omega : z < x)]

theorem cmpRes_of_segs_lt {x y : Resource}
    (h : cmpSegs (verKey x) (verKey y) = .lt) : cmpRes x y = .lt := by
  unfold cmpRes
  rw [h]

theorem cmpRes_of_segs_gt {x y : Resource}
    (h : cmpSegs (verKey x) (verKey y) = .gt) : cmpRes x y = .gt := by
  unfold cmpRes
  rw [h]

theorem cmpRes_of_segs_eq {x y : Resource}
    (h : cmpSegs (verKey x) (verKey y) = .eq) :
    cmpRes x y = (if x.updated_at < y.updated_at then .lt
      else if y.updated_at < x.updated_at then .gt else .eq) := by
  unfold cmpRes
  rw [h]

theorem cmpRes_self (x : Resource) : cmpRes x x = .eq := by
  rw [cmpRes_of_segs_eq (cmpSegs_self _)]
  simp

theorem cmpRes_eq_components {x y : Resource} (h : cmpRes x y = .eq) :
    verKey x = verKey y ∧ x.updated_at = y.updated_at := by
  rcases hseg : cmpSegs (verKey x) (verKey y) with _ | _ | _
  · rw [cmpRes_of_segs_lt hseg] at h
    exact absurd h (by decide)
  · rw [cmpRes_of_segs_eq hseg] at h
    refine ⟨(cmpSegs_eq_iff _ _).mp hseg, ?_⟩
    split_ifs at h with h1 h2
    omega
  · rw [cmpRes_of_segs_gt hseg] at h
    exact absurd h (by decide)

theorem cmpRes_gt_iff {x y : Resource} :
    cmpRes x y = .gt ↔
      (cmpSegs (verKey x) (verKey y) = .gt ∨
        (verKey x = verKey y ∧ y.updated_at < x.updated_at)) := by
  rcases hseg : cmpSegs (verKey x) (verKey y) with _ | _ | _
  · rw [cmpRes_of_segs_lt hseg]
    constructor
    · intro h; exact absurd h (by decide)
    · rintro (h | ⟨hk, _⟩)
      · exact absurd h (by simp [hseg])
      · rw [hk, cmpSegs_self] at hseg
        exact absurd hseg (by decide)
  · have hk : verKey x = verKey y := (cmpSegs_eq_iff _ _).mp hseg
    rw [cmpRes_of_segs_eq hseg]
    constructor
    · intro h
      split_ifs at h with h1 h2
      exact Or.inr ⟨hk, h2⟩
    · rintro (h | ⟨_, hu⟩)
      · exact absurd h (by simp [hseg])
      · rw [if_neg (by omega : ¬ x.updated_at < y.updated_at), if_pos hu]
  · rw [cmpRes_of_segs_gt hseg]
    simp [hseg]

theorem cmpRes_gt_trans {x y z : Resource}
    (hxy : cmpRes x y = .gt) (hyz : cmpRes y z = .gt) : cmpRes x z = .gt := by
  rw [cmpRes_gt_iff] at hxy hyz ⊢
  rcases hxy with h1 | ⟨hk1, hu1⟩
  · rcases hyz with h2 | ⟨hk2, hu2⟩
    · exact Or.inl (cmpSegs_gt_trans _ _ _ h1 h2)
    · exact Or.inl (hk2 ▸ h1)
  · rcases hyz with h2 | ⟨hk2, hu2⟩
    · exact Or.inl (hk1 ▸ h2)
    · exact Or.inr ⟨hk1.trans hk2, by omega⟩

theorem cmpRes_not_gt_of_le_of_gt {b r m : Resource}
    (hbr : cmpRes b r ≠ .gt) (hbm : cmpRes b m = .gt) : cmpRes r m = .gt := by
  rcases h : cmpRes b r with _ | _ | _
  · -- r is strictly better than b, and b is strictly better than m
    have hrb : cmpRes r b = .gt := by
      rw [cmpRes_gt_iff]
      rcases hs : cmpSegs (verKey b) (verKey r) with _ | _ | _
      · exact Or.inl ((cmpSegs_gt_iff_lt _ _).mpr hs)
      · rw [cmpRes_of_segs_eq hs] at h
        have hk : verKey b = verKey r := (cmpSegs_eq_iff _ _).mp hs
        refine Or.inr ⟨hk.symm, ?_⟩
        split_ifs at h with h1 h2
        omega
      · rw [cmpRes_of_segs_gt hs] at h
        exact absurd h (by decide)
    exact cmpRes_gt_trans hrb hbm
  · -- b and r carry equal keys, so r beats whatever b beats
    obtain ⟨hk, hu⟩ := cmpRes_eq_components h
    rw [cmpRes_gt_iff] at hbm ⊢
    rcases hbm with h2 | ⟨hk2, hu2⟩
    · exact Or.inl (hk ▸ h2)
    · exact Or.inr ⟨hk ▸ hk2, by omega⟩
  · exact absurd h hbr

/-! ## C1: latest picks the maximum of its source -/

theorem foldl_pickBetter_mem : ∀ (rs : List Resource) (r : Resource),
    rs.foldl pickBetter r ∈ r :: rs := by
  intro rs
  induction rs with
  | nil => intro r; simp
  | cons b bs ih =>
    intro r
    have h := ih (pickBetter r b)
    simp only [List.foldl_cons]
    rcases List.mem_cons.mp h with h1 | h1
    · by_cases hrb : cmpRes b r = .gt
      · have hpk : pickBetter r b = b := by unfold pickBetter; rw [if_pos hrb]
        rw [hpk] at h1 ⊢
        simp [h1]
      · have hpk : pickBetter r b = r := by unfold pickBetter; rw [if_neg hrb]
        rw [hpk] at h1 ⊢
        simp [h1]
    · simp [h1]

theorem foldl_pickBetter_max : ∀ (rs : List Resource) (r : Resource),
    ∀ x ∈ r :: rs, cmpRes x (rs.foldl pickBetter r) ≠ .gt := by
  intro rs
  induction rs with
  | nil =>
    intro r x hx
    simp only [List.mem_singleton] at hx
    subst hx
    simp [cmpRes_self]
  | cons b bs ih =>
    intro r x hx
    simp only [List.foldl_cons]
    have ihall := ih (pickBetter r b)
    rcases List.mem_cons.mp hx with h1 | h1
    · subst h1
      by_cases hrb : cmpRes b x = .gt
      · -- pickBetter x b = b, and x does not beat b, which does not beat the fold
        have hpk : pickBetter x b = b := by unfold pickBetter; simp [hrb]
        have hb : cmpRes b (bs.foldl pickBetter (pickBetter x b)) ≠ .gt := by
          apply ihall
          rw [hpk]; simp
        intro hxm
        -- if x beat the fold result, then since x does not beat b in reverse...
        have hxb : cmpRes x b ≠ .gt := by
          intro hxb
          have := cmpRes_gt_trans hxb hrb
          -- x > b and b > x gives x > x, impossible
          rw [cmpRes_self] at this
          exact absurd this (by simp)
        exact hb (cmpRes_not_gt_of_le_of_gt hxb hxm)
      · have hpk : pickBetter x b = x := by unfold pickBetter; simp [hrb]
        apply ihall
        rw [hpk]; simp
    · rcases List.mem_cons.mp h1 with h2 | h2
      · subst h2
        by_cases hrb : cmpRes x r = .gt
        · have hpk : pickBetter r x = x := by unfold pickBetter; simp [hrb]
          apply ihall
          rw [hpk]; simp
        · have hpk : pickBetter r x = r := by unfold pickBetter; simp [hrb]
          have hr : cmpRes r (bs.foldl pickBetter (pickBetter r x)) ≠ .gt := by
            apply ihall
            rw [hpk]; simp
          intro hxm
          exact hr (cmpRes_not_gt_of_le_of_gt hrb hxm)
      · exact ihall x (by simp [h2])

/-- Catalog holding exactly the php versions of the specification example. -/
def phpCat : List Resource :=
  [{ source := "php", file_name := "php-8.1.0.tar.gz",
     url := "https://www.php.net/distributions/php-8.1.0.tar.gz",
     version := some "8.1.0", updated_at := 100 },
   { source := "php", file_name := "php-8.3.2.tar.gz",
     url := "https://www.php.net/distributions/php-8.3.2.tar.gz",
     version := some "8.3.2", updated_at := 100 },
   { source := "php", file_name := "php-8.2.9.tar.gz",
     url := "https://www.php.net/distributions/php-8.2.9.tar.gz",
     version := some "8.2.9", updated_at := 100 }]

/-- C1: for every source present in the catalog, `latest` returns a record of
that source that no other record of the source beats under the ordering of
spec 4.4 (numeric dot-separated segments component-wise, missing version
lowest, `updated_at` breaking ties); and over the php versions 8.1.0, 8.3.2,
8.2.9 it returns the 8.3.2 record. -/
theorem latest_is_max :
    (∀ (cat : List Resource) (s : String), list_by_source cat s ≠ [] →
      ∃ m, latest cat s = some m ∧ m ∈ list_by_source cat s ∧
        ∀ x ∈ list_by_source cat s, cmpRes x m ≠ .gt) ∧
    latest phpCat "php" = some
      { source := "php", file_name := "php-8.3.2.tar.gz",
        url := "https://www.php.net/distributions/php-8.3.2.tar.gz",
        version := some "8.3.2", updated_at := 100 } := by
  constructor
  · intro cat s hne
    rcases hls : list_by_source cat s with _ | ⟨r, rs⟩
    · exact absurd hls hne
    · refine ⟨rs.foldl pickBetter r, ?_, ?_, ?_⟩
      · unfold latest
        rw [hls]
      · exact foldl_pickBetter_mem rs r
      · exact foldl_pickBetter_max rs r
  · rfl

/-- Witness for C1: the php catalog has records for source php, and the
maximality statement applies to it. -/
theorem latest_is_max_witness :
    list_by_source phpCat "php" ≠ [] ∧
    ∃ m, latest phpCat "php" = some m ∧ m ∈ list_by_source phpCat "php" ∧
      ∀ x ∈ list_by_source phpCat "php", cmpRes x m ≠ .gt := by
  have hne : list_by_source phpCat "php" ≠ [] := by decide
  exact ⟨hne, latest_is_max.1 phpCat "php" hne⟩

/-! ## ScrapeOrchestrator run lock (spec 4.3, 5)

The backend orchestrator is absent from src/; its run-lock discipline is
modelled from the specification: a single process-wide boolean run-lock, a
`run_full` invocation that is rejected while a cycle is in flight, and an
unconditional release on completion, failure or cancellation. -/

/-- Modelled from the spec: the process-scoped orchestrator run state of
design note 9.2 — the run-lock boolean plus a counter of started cycles used
to observe that a rejected invocation starts nothing. -/
structure OrchState where
  running : Bool
  cyclesStarted : Nat
deriving DecidableEq, Repr

/-- Modelled from the spec: the caller-visible outcome of a `run_full`
invocation — either a cycle starts, or the invocation is rejected as
already running. -/
inductive RunFullResult where
  | started
  | alreadyRunning
deriving DecidableEq, Repr

/-- Modelled from the spec: `run_full` takes the run-lock if it is free and
starts a cycle, and otherwise reports the benign `ConcurrentRunRejected`
rejection without touching the state. -/
def run_full (s : OrchState) : RunFullResult × OrchState :=
  if s.running then (.alreadyRunning, s)
  else (.started, { running := true, cyclesStarted := s.cyclesStarted + 1 })

/-- Modelled from the spec: the three ways a full-scrape cycle can end. -/
inductive CycleOutcome where
  | completed
  | failed
  | cancelled
deriving DecidableEq, Repr

/-- Modelled from the spec: ending a cycle releases the run-lock
unconditionally, whatever the outcome. -/
def finish_cycle (_ : CycleOutcome) (s : OrchState) : OrchState :=
  { s with running := false }

/-- C2: while a cycle is in flight a `run_full` invocation is rejected as
already running and starts no second cycle; ending a cycle by completion,
failure or cancellation always releases the run-lock, after which `run_full`
succeeds. -/
theorem run_full_at_most_one (s : OrchState) (h : s.running = true) :
    run_full s = (.alreadyRunning, s) ∧
    (run_full s).2.cyclesStarted = s.cyclesStarted ∧
    (∀ o : CycleOutcome, (finish_cycle o s).running = false) ∧
    (∀ o : CycleOutcome, (run_full (finish_cycle o s)).1 = .started) := by
  refine ⟨?_, ?_, ?_, ?_⟩
  · unfold run_full
    rw [if_pos h]
  · unfold run_full
    rw [if_pos h]
  · intro o
    rfl
  · intro o
    unfold run_full finish_cycle
    simp

/-- Witness for C2: a state with the run-lock held rejects a second
invocation and accepts one after the cycle finishes. -/
theorem run_full_at_most_one_witness :
    run_full ⟨true, 1⟩ = (.alreadyRunning, ⟨true, 1⟩) ∧
    (run_full ⟨true, 1⟩).2.cyclesStarted = 1 ∧
    (∀ o : CycleOutcome, (finish_cycle o ⟨true, 1⟩).running = false) ∧
    (∀ o : CycleOutcome, (run_full (finish_cycle o ⟨true, 1⟩)).1 = .started) :=
  run_full_at_most_one ⟨true, 1⟩ rfl

/-! ## ResolutionEngine (spec 4.5)

The backend resolution engine is absent from src/; its request-time state
machine is modelled from the specification.  The upstream fetch is passed in
as a function from url to an optional body, `none` standing for a failed
fetch. -/

/-- Modelled from the spec: the process-wide mirror mode setting. -/
inductive MirrorMode where
  | redirect
  | cache
deriving DecidableEq, Repr

/-- Modelled from the spec: the cache store is a local content store keyed
by filename. -/
def cacheLookup (cache : List (String × String)) (n : String) : Option String :=
  (cache.find? (fun p => p.1 = n)).map (fun p => p.2)

/-- Modelled from the spec: the terminal states of the resolution state
machine of spec 4.5. -/
inductive ResolveResult where
  | notFound
  | redirectTo (url : String)
  | hit (content : String)
  | served (content : String)
deriving DecidableEq, Repr

/-- Maps each terminal resolution state to the HTTP status the caller
returns for it; the fetch-error fallback is a 302 redirect, never a 5xx. -/
def resultStatus : ResolveResult → Nat
  | .notFound => 404
  | .redirectTo _ => 302
  | .hit _ => 200
  | .served _ => 200

/-- Modelled from the spec: the ResolutionEngine request-time state machine
(spec 4.5) — lookup by filename, then the mode decision, then cache serve
with lazy fill, falling back to a redirect when the upstream fetch fails.
Returns the terminal state together with the cache store after the
request. -/
def resolve (cat : List Resource) (cache : List (String × String))
    (mode : MirrorMode) (force_redirect : Bool) (fname : String)
    (fetch : String → Option String) : ResolveResult × List (String × String) :=
  match get_by_filename cat fname with
  | none => (.notFound, cache)
  | some r =>
    if force_redirect || mode = .redirect then
      (.redirectTo r.url, cache)
    else
      match cacheLookup cache fname with
      | some content => (.hit content, cache)
      | none =>
        match fetch r.url with
        | some content => (.served content, cache ++ [(fname, content)])
        | none => (.redirectTo r.url, cache)

/-- C4: whenever the requested filename is in the catalog and either the
`force_redirect` override is set or the mirror mode is redirect, resolution
terminates in the Redirect state carrying the Resource's upstream url
unchanged, and the cache store is left exactly as it was, for every cache
content and every upstream fetch behaviour; this covers in particular
`force_redirect = true` under cache mode. -/
theorem resolve_redirect_mode (cat : List Resource) (fname : String)
    (r : Resource) (mode : MirrorMode) (force_redirect : Bool)
    (h1 : get_by_filename cat fname = some r)
    (h2 : force_redirect = true ∨ mode = .redirect) :
    ∀ (cache : List (String × String)) (fetch : String → Option String),
      resolve cat cache mode force_redirect fname fetch = (.redirectTo r.url, cache) := by
  intro cache fetch
  unfold resolve
  rw [h1]
  have hcond : (force_redirect || mode = .redirect) = true := by
    rcases h2 with h | h
    · rw [h]; rfl
    · rw [h]
      simp
  simp [hcond]

/-- Witness for C4: with mirror mode cache and the override set, a known
filename resolves to a redirect to its upstream url, and the cache is not
written. -/
theorem resolve_redirect_mode_witness :
    get_by_filename phpCat "php-8.3.2.tar.gz" = some
      { source := "php", file_name := "php-8.3.2.tar.gz",
        url := "https://www.php.net/distributions/php-8.3.2.tar.gz",
        version := some "8.3.2", updated_at := 100 } ∧
    resolve phpCat [] .cache true "php-8.3.2.tar.gz" (fun _ => none) =
      (.redirectTo "https://www.php.net/distributions/php-8.3.2.tar.gz", []) := by
  refine ⟨by rfl, ?_⟩
  exact resolve_redirect_mode phpCat "php-8.3.2.tar.gz" _ .cache true (by rfl)
    (Or.inl rfl) [] (fun _ => none)

/-! ## Frontend proxy routes (src/frontend/app)

These handlers are embedded from the TypeScript sources.  A backend fetch
either reaches the backend, yielding its status and body, or throws, which
the handlers catch. -/

/-- Outcome of the `fetch` call a route handler performs against the
backend: reachable with some status and body, or a thrown network error. -/
inductive BackendFetch where
  | reachable (status : Nat) (body : String)
  | unreachable
deriving DecidableEq, Repr

/-- An HTTP response as a route handler builds it: a status code, a
Content-Type header and a text body. -/
structure HttpTextResponse where
  status : Nat
  contentType : String
  body : String
deriving DecidableEq, Repr

/-- GET handler of src/frontend/app/_redirects/route.ts: passes the backend
response body and status through as text/plain, and on a thrown fetch
returns a 503 text/plain error body. -/
def redirectsGET : BackendFetch → HttpTextResponse
  | .reachable st body =>
    { status := st, contentType := "text/plain; charset=utf-8", body := body }
  | .unreachable =>
    { status := 503, contentType := "text/plain; charset=utf-8",
      body := "# Error: Backend unavailable\n" }

/-- GET handler of src/frontend/app/latest_meta.json/route.ts: forwards the
backend JSON on success and returns a 503 JSON error when the fetch throws;
the body is modelled as the raw text. -/
def latestMetaGET : BackendFetch → HttpTextResponse
  | .reachable _ body =>
    { status := 200, contentType := "application/json", body := body }
  | .unreachable =>
    { status := 503, contentType := "application/json",
      body := "\x7b\"error\":\"Backend unavailable\"\x7d" }

/-- Counterexample to C5 as stated: when the backend is unreachable, the
`_redirects` route handler cited by the claim answers the client with
status 503 — a 5xx — and the `latest_meta.json` handler does the same, so a
failure to obtain the resource from the backend can produce a 5xx. -/
theorem redirects_route_returns_503 :
    (redirectsGET .unreachable).status = 503 ∧
    500 ≤ (redirectsGET .unreachable).status ∧
    (latestMetaGET .unreachable).status = 503 := by
  refine ⟨rfl, ?_, rfl⟩
  decide

/-- C5 amended: on the filename-resolution path itself, an upstream fetch
failure in cache mode for a known filename falls back to a redirect to the
Resource's original url — status 302, not a 5xx — while the frontend proxy
routes return 503 when the backend is unreachable. -/
theorem resolve_fetch_error_falls_back (cat : List Resource)
    (cache : List (String × String)) (fname : String) (r : Resource)
    (fetch : String → Option String)
    (h1 : get_by_filename cat fname = some r)
    (h2 : cacheLookup cache fname = none)
    (h3 : fetch r.url = none) :
    resolve cat cache .cache false fname fetch = (.redirectTo r.url, cache) ∧
    resultStatus (resolve cat cache .cache false fname fetch).1 = 302 ∧
    resultStatus (resolve cat cache .cache false fname fetch).1 < 500 := by
  have hres : resolve cat cache .cache false fname fetch = (.redirectTo r.url, cache) := by
    unfold resolve
    rw [h1]
    simp only [Bool.false_or]
    rw [if_neg (by decide : ¬ (decide (MirrorMode.cache = MirrorMode.redirect) = true))]
    rw [h2, h3]
  refine ⟨hres, ?_, ?_⟩ <;> rw [hres] <;> simp [resultStatus]

/-- Witness for C5 amended: a concrete catalog, an empty cache and a fetch
that always fails produce the redirect fallback. -/
theorem resolve_fetch_error_falls_back_witness :
    resolve phpCat [] .cache false "php-8.3.2.tar.gz" (fun _ => none) =
      (.redirectTo "https://www.php.net/distributions/php-8.3.2.tar.gz", []) ∧
    resultStatus (resolve phpCat [] .cache false "php-8.3.2.tar.gz" (fun _ => none)).1 = 302 ∧
    resultStatus (resolve phpCat [] .cache false "php-8.3.2.tar.gz" (fun _ => none)).1 < 500 :=
  resolve_fetch_error_falls_back phpCat [] "php-8.3.2.tar.gz" _ (fun _ => none)
    (by rfl) (by rfl) (by rfl)

/-! ## Scrape cycle (spec 4.3)

The backend orchestrator cycle is absent from src/; it is modelled from the
specification.  Concurrency is abstracted: the adapter list is given in
completion order and each completed adapter is merged and logged
immediately, one after the other, which realizes the per-completion
persistence of spec 4.3 in a sequential embedding.  An adapter timeout is
one of the conditions an adapter reports as a failure result (spec 4.1). -/

/-- Modelled from the spec: the outcome one adapter invocation reports — a
proposed resource list on success, or a failure (including the per-adapter
timeout having fired) with an error message. -/
inductive AdapterOutcome where
  | ok (resources : List Resource)
  | failed (error : String)
deriving DecidableEq, Repr

/-- The ScrapeLog row shape of the dashboard Logs page
(src/unnamed/part_002), restricted to the fields the claims speak about. -/
structure ScrapeLogRow where
  scraper_name : String
  status : String
  resources_count : Nat
  error_message : Option String
deriving DecidableEq, Repr

/-- Modelled from the spec: status derivation for a ScrapeLog row —
`failed` when the adapter reported failure or its timeout fired, `partial`
when it succeeded with zero resources, `success` otherwise. -/
def deriveStatus (success : Bool) (resources_count : Nat) : String :=
  if success then
    if resources_count = 0 then "partial" else "success"
  else "failed"

/-- Status color switch of the dashboard Logs page
(src/unnamed/part_002, getStatusColor): the three recognized statuses map to
dedicated colors, everything else to the default gray. -/
def getStatusColor (status : String) : String :=
  if status = "success" then "#22c55e"
  else if status = "partial" then "#f59e0b"
  else if status = "failed" then "#ef4444"
  else "#888"

/-- The record as the catalog stores it after an observation at `now`. -/
def stamp (now : Nat) (r : Resource) : Resource :=
  { r with updated_at := max r.updated_at now }

/-- Modelled from the spec: merging one ScrapeResult into the catalog
upserts every proposed resource by file name, in order. -/
def mergeResult (now : Nat) (cat : List Resource) (rs : List Resource) : List Resource :=
  rs.foldl (fun c r => upsertAt now r c) cat

/-- Modelled from the spec: one adapter completion — merge its proposed
resources on success, leave the catalog alone on failure, and in both cases
produce the ScrapeLog row with the derived status. -/
def runAdapter (now : Nat) (cat : List Resource) (a : String × AdapterOutcome) :
    List Resource × ScrapeLogRow :=
  match a.2 with
  | .ok rs =>
    (mergeResult now cat rs,
      { scraper_name := a.1, status := deriveStatus true rs.length,
        resources_count := rs.length, error_message := none })
  | .failed e =>
    (cat,
      { scraper_name := a.1, status := deriveStatus false 0,
        resources_count := 0, error_message := some e })

/-- Modelled from the spec: a full-scrape cycle over the registered
adapters in completion order; every adapter is merged and logged, no
failure aborts the remainder. -/
def run_cycle (now : Nat) (cat : List Resource) :
    List (String × AdapterOutcome) → List Resource × List ScrapeLogRow
  | [] => (cat, [])
  | a :: rest =>
    let step := runAdapter now cat a
    let next := run_cycle now step.1 rest
    (next.1, step.2 :: next.2)

/-- Tests whether an adapter completion is a failure. -/
def isFailedAdapter (a : String × AdapterOutcome) : Bool :=
  match a.2 with
  | .ok _ => false
  | .failed _ => true

/-- The file names an adapter completion proposes. -/
def proposedOf (a : String × AdapterOutcome) : List String :=
  match a.2 with
  | .ok rs => rs.map (fun r => r.file_name)
  | .failed _ => []

/-- All file names proposed across a cycle, in order. -/
def proposedNames (adapters : List (String × AdapterOutcome)) : List String :=
  (adapters.map proposedOf).flatten

/-! ## Catalog upsert lemmas -/

theorem get_upsert_same (now : Nat) (r : Resource) :
    ∀ cat : List Resource,
      get_by_filename (upsertAt now r cat) r.file_name = some (stamp now r) := by
  intro cat
  induction cat with
  | nil => simp [upsertAt, get_by_filename, stamp]
  | cons x xs ih =>
    by_cases hx : x.file_name = r.file_name
    · simp [upsertAt, hx, get_by_filename, stamp]
    · unfold get_by_filename at ih ⊢
      simp only [upsertAt, if_neg hx]
      rw [List.find?_cons_of_neg _ (by simp [hx])]
      exact ih

theorem get_upsert_other (now : Nat) (r : Resource) (n : String) (hn : n ≠ r.file_name) :
    ∀ cat : List Resource,
      get_by_filename (upsertAt now r cat) n = get_by_filename cat n := by
  intro cat
  induction cat with
  | nil =>
    simp [upsertAt, get_by_filename, stamp, List.find?_cons_of_neg,
      (by simpa using hn.symm : ¬ r.file_name = n)]
  | cons x xs ih =>
    by_cases hx : x.file_name = r.file_name
    · unfold get_by_filename at ih ⊢
      simp only [upsertAt, if_pos hx]
      rw [List.find?_cons_of_neg _ (by simp [(by simpa using hn.symm : ¬ r.file_name = n)]),
        List.find?_cons_of_neg _ (by simp [hx ▸ (by simpa using hn.symm : ¬ r.file_name = n)])]
    · unfold get_by_filename at ih ⊢
      simp only [upsertAt, if_neg hx]
      by_cases hxn : x.file_name = n
      · rw [List.find?_cons_of_pos _ (by simp [hxn]), List.find?_cons_of_pos _ (by simp [hxn])]
      · rw [List.find?_cons_of_neg _ (by simp [hxn]), List.find?_cons_of_neg _ (by simp [hxn])]
        exact ih

theorem get_merge_other (now : Nat) (n : String) :
    ∀ (rs : List Resource) (cat : List Resource),
      n ∉ rs.map (fun r => r.file_name) →
      get_by_filename (mergeResult now cat rs) n = get_by_filename cat n := by
  intro rs
  induction rs with
  | nil => intro cat _; rfl
  | cons x xs ih =>
    intro cat hn
    simp only [List.map_cons, List.mem_cons, not_or] at hn
    have hstep : mergeResult now cat (x :: xs) = mergeResult now (upsertAt now x cat) xs := rfl
    rw [hstep, ih (upsertAt now x cat) (by simpa using hn.2),
      get_upsert_other now x n hn.1]

theorem get_merge_same (now : Nat) :
    ∀ (rs : List Resource) (cat : List Resource),
      (rs.map (fun r => r.file_name)).Nodup →
      ∀ r ∈ rs, get_by_filename (mergeResult now cat rs) r.file_name = some (stamp now r) := by
  intro rs
  induction rs with
  | nil => intro cat _ r hr; exact absurd hr (by simp)
  | cons x xs ih =>
    intro cat hnd r hr
    have hstep : mergeResult now cat (x :: xs) = mergeResult now (upsertAt now x cat) xs := rfl
    simp only [List.map_cons, List.nodup_cons] at hnd
    rcases List.mem_cons.mp hr with h1 | h1
    · subst h1
      rw [hstep, get_merge_other now r.file_name xs (upsertAt now r cat) hnd.1,
        get_upsert_same now r]
    · rw [hstep]
      exact ih (upsertAt now x cat) hnd.2 r h1

theorem run_cycle_untouched (now : Nat) (n : String) :
    ∀ (adapters : List (String × AdapterOutcome)) (cat : List Resource),
      n ∉ proposedNames adapters →
      get_by_filename (run_cycle now cat adapters).1 n = get_by_filename cat n := by
  intro adapters
  induction adapters with
  | nil => intro cat _; rfl
  | cons a rest ih =>
    intro cat hn
    have hsplit : proposedNames (a :: rest) = proposedOf a ++ proposedNames rest := by
      simp [proposedNames]
    rw [hsplit] at hn
    simp only [List.mem_append, not_or] at hn
    show get_by_filename (run_cycle now (runAdapter now cat a).1 rest).1 n = get_by_filename cat n
    rw [ih (runAdapter now cat a).1 hn.2]
    rcases a with ⟨name, out⟩
    cases out with
    | ok rs =>
      exact get_merge_other now n rs cat (by simpa [proposedOf] using hn.1)
    | failed e => rfl

theorem run_cycle_persists (now : Nat) :
    ∀ (adapters : List (String × AdapterOutcome)) (cat : List Resource),
      (proposedNames adapters).Nodup →
      ∀ a ∈ adapters, ∀ rs : List Resource, a.2 = .ok rs →
        ∀ r ∈ rs, get_by_filename (run_cycle now cat adapters).1 r.file_name =
          some (stamp now r) := by
  intro adapters
  induction adapters with
  | nil => intro cat _ a ha; exact absurd ha (by simp)
  | cons a0 rest ih =>
    intro cat hnd a ha rs hrs r hr
    have hsplit : proposedNames (a0 :: rest) = proposedOf a0 ++ proposedNames rest := by
      simp [proposedNames]
    rw [hsplit] at hnd
    rw [List.nodup_append] at hnd
    obtain ⟨hnd1, hnd2, hdisj⟩ := hnd
    rcases List.mem_cons.mp ha with h1 | h1
    · subst h1
      show get_by_filename (run_cycle now (runAdapter now cat a).1 rest).1 r.file_name =
        some (stamp now r)
      have hname : r.file_name ∈ proposedOf a := by
        simp [proposedOf, hrs]
        exact ⟨r, hr, rfl⟩
      rw [run_cycle_untouched now r.file_name rest (runAdapter now cat a).1 (hdisj hname)]
      rcases a with ⟨name, out⟩
      simp only at hrs
      subst hrs
      exact get_merge_same now rs cat (by simpa [proposedOf] using hnd1) r hr
    · show get_by_filename (run_cycle now (runAdapter now cat a0).1 rest).1 r.file_name =
        some (stamp now r)
      exact ih (runAdapter now cat a0).1 hnd2 a h1 rs hrs r hr

theorem run_cycle_log_names (now : Nat) :
    ∀ (adapters : List (String × AdapterOutcome)) (cat : List Resource),
      (run_cycle now cat adapters).2.length = adapters.length ∧
      (run_cycle now cat adapters).2.map (fun l => l.scraper_name) =
        adapters.map (fun a => a.1) := by
  intro adapters
  induction adapters with
  | nil => intro cat; exact ⟨rfl, rfl⟩
  | cons a rest ih =>
    intro cat
    have hrow : (runAdapter now cat a).2.scraper_name = a.1 := by
      rcases a with ⟨name, out⟩
      cases out <;> rfl
    obtain ⟨hl, hm⟩ := ih (runAdapter now cat a).1
    constructor
    · show ((runAdapter now cat a).2 :: (run_cycle now (runAdapter now cat a).1 rest).2).length =
        rest.length + 1
      simp [hl]
    · show ((runAdapter now cat a).2 :: (run_cycle now (runAdapter now cat a).1 rest).2).map
        (fun l => l.scraper_name) = a.1 :: rest.map (fun x => x.1)
      simp [hrow, hm]

theorem deriveStatus_ok_ne_failed (n : Nat) : deriveStatus true n ≠ "failed" := by
  by_cases h : n = 0 <;> simp [deriveStatus, h]

theorem run_cycle_failed_count (now : Nat) :
    ∀ (adapters : List (String × AdapterOutcome)) (cat : List Resource),
      ((run_cycle now cat adapters).2.filter (fun l => l.status = "failed")).length =
        (adapters.filter isFailedAdapter).length := by
  intro adapters
  induction adapters with
  | nil => intro cat; rfl
  | cons a rest ih =>
    intro cat
    show (((runAdapter now cat a).2 :: (run_cycle now (runAdapter now cat a).1 rest).2).filter
        (fun l => l.status = "failed")).length = ((a :: rest).filter isFailedAdapter).length
    rcases a with ⟨name, out⟩
    cases out with
    | ok rs =>
      rw [List.filter_cons_of_neg (by simp [runAdapter, deriveStatus_ok_ne_failed]),
        List.filter_cons_of_neg (by simp [isFailedAdapter])]
      exact ih _
    | failed e =>
      rw [List.filter_cons_of_pos (by simp [runAdapter, deriveStatus]),
        List.filter_cons_of_pos (by simp [isFailedAdapter])]
      simp only [List.length_cons]
      rw [ih _]

/-- C3: in a cycle where exactly one adapter fails and the proposed file
names do not collide, every adapter still gets exactly one log row in
order, exactly one row has status failed, and every resource proposed by a
successful adapter is persisted in the final catalog under its file name. -/
theorem run_cycle_bulkhead (now : Nat) (adapters : List (String × AdapterOutcome))
    (cat : List Resource)
    (hone : (adapters.filter isFailedAdapter).length = 1)
    (hnodup : (proposedNames adapters).Nodup) :
    (run_cycle now cat adapters).2.length = adapters.length ∧
    (run_cycle now cat adapters).2.map (fun l => l.scraper_name) =
      adapters.map (fun a => a.1) ∧
    ((run_cycle now cat adapters).2.filter (fun l => l.status = "failed")).length = 1 ∧
    (∀ a ∈ adapters, ∀ rs : List Resource, a.2 = .ok rs →
      ∀ r ∈ rs, get_by_filename (run_cycle now cat adapters).1 r.file_name =
        some (stamp now r)) := by
  obtain ⟨hl, hm⟩ := run_cycle_log_names now adapters cat
  refine ⟨hl, hm, ?_, ?_⟩
  · rw [run_cycle_failed_count now adapters cat, hone]
  · exact run_cycle_persists now adapters cat hnodup

/-- Nginx resource proposed in the bulkhead witness cycle. -/
def nginxRes : Resource :=
  { source := "nginx", file_name := "nginx-1.27.4.tar.gz",
    url := "https://nginx.org/download/nginx-1.27.4.tar.gz",
    version := some "1.27.4", updated_at := 0 }

/-- Redis resource proposed in the bulkhead witness cycle. -/
def redisRes : Resource :=
  { source := "redis", file_name := "redis-7.4.2.tar.gz",
    url := "https://download.redis.io/releases/redis-7.4.2.tar.gz",
    version := some "7.4.2", updated_at := 0 }

/-- Adapter completions used to witness the bulkhead property: nginx and
redis succeed, php fails. -/
def adapters3 : List (String × AdapterOutcome) :=
  [("nginx", .ok [nginxRes]),
   ("php", .failed "network unreachable"),
   ("redis", .ok [redisRes])]

/-- Witness for C3: with one failing adapter out of three, both hypotheses
hold and the cycle yields three rows, one failed, with both successful
adapters' resources persisted. -/
theorem run_cycle_bulkhead_witness :
    (adapters3.filter isFailedAdapter).length = 1 ∧
    (proposedNames adapters3).Nodup ∧
    ((run_cycle 7 [] adapters3).2.length = adapters3.length ∧
      (run_cycle 7 [] adapters3).2.map (fun l => l.scraper_name) =
        adapters3.map (fun a => a.1) ∧
      ((run_cycle 7 [] adapters3).2.filter (fun l => l.status = "failed")).length = 1 ∧
      (∀ a ∈ adapters3, ∀ rs : List Resource, a.2 = .ok rs →
        ∀ r ∈ rs, get_by_filename (run_cycle 7 [] adapters3).1 r.file_name =
          some (stamp 7 r))) :=
  ⟨by decide, by decide, run_cycle_bulkhead 7 adapters3 [] (by decide) (by decide)⟩

/-- First record proposed under a colliding file name. -/
def rClash1 : Resource :=
  { source := "misc_github", file_name := "jemalloc-5.3.0.tar.gz",
    url := "https://example.org/a/jemalloc-5.3.0.tar.gz",
    version := some "5.3.0", updated_at := 0 }

/-- Second record proposed under the same file name by a later-completing
adapter, carrying a different upstream url. -/
def rClash2 : Resource :=
  { source := "jemalloc", file_name := "jemalloc-5.3.0.tar.gz",
    url := "https://example.org/b/jemalloc-5.3.0.tar.gz",
    version := some "5.3.0", updated_at := 0 }

/-- A cycle with exactly one failing adapter in which two successful
adapters propose the same file name. -/
def adaptersClash : List (String × AdapterOutcome) :=
  [("a", .ok [rClash1]), ("b", .failed "network unreachable"), ("c", .ok [rClash2])]

/-- Counterexample to C3 as stated: in a cycle with exactly one failing
adapter, the successful adapter a proposes rClash1, yet after the cycle the
catalog's record under that file name carries the later adapter's url, not
rClash1's — under a file-name collision the last-completing write wins
(spec 4.3), so not every successful adapter's resource is persisted. -/
theorem run_cycle_collision_counterexample :
    (adaptersClash.filter isFailedAdapter).length = 1 ∧
    ("a", AdapterOutcome.ok [rClash1]) ∈ adaptersClash ∧
    get_by_filename (run_cycle 5 [] adaptersClash).1 rClash1.file_name =
      some (stamp 5 rClash2) ∧
    (get_by_filename (run_cycle 5 [] adaptersClash).1 rClash1.file_name).map
      (fun r => r.url) ≠ some rClash1.url := by
  refine ⟨by decide, by decide, by decide, by decide⟩

theorem run_cycle_row_status (now : Nat) :
    ∀ (adapters : List (String × AdapterOutcome)) (cat : List Resource),
      ∀ row ∈ (run_cycle now cat adapters).2,
        row.status = "success" ∨ row.status = "partial" ∨ row.status = "failed" := by
  intro adapters
  induction adapters with
  | nil => intro cat row hrow; exact absurd hrow (by simp [run_cycle])
  | cons a rest ih =>
    intro cat row hrow
    have hrow2 : row = (runAdapter now cat a).2 ∨
        row ∈ (run_cycle now (runAdapter now cat a).1 rest).2 := List.mem_cons.mp hrow
    rcases hrow2 with h1 | h1
    · subst h1
      rcases a with ⟨name, out⟩
      cases out with
      | ok rs =>
        by_cases h : rs.length = 0
        · refine Or.inr (Or.inl ?_)
          show deriveStatus true rs.length = "partial"
          simp [deriveStatus, h]
        · refine Or.inl ?_
          show deriveStatus true rs.length = "success"
          simp [deriveStatus, h]
      | failed e => exact Or.inr (Or.inr rfl)
    · exact ih (runAdapter now cat a).1 row h1

/-- C6: the derived ScrapeLog status is always one of exactly success,
partial and failed — failed when the adapter reported failure (or its
timeout fired), partial when it reported success with zero resources,
success otherwise — and every row a cycle writes carries one of the three
statuses, each recognized by the dashboard status colors. -/
theorem scrape_log_status_derivation :
    (∀ (success : Bool) (n : Nat),
      deriveStatus success n = "success" ∨ deriveStatus success n = "partial" ∨
        deriveStatus success n = "failed") ∧
    (∀ n, deriveStatus false n = "failed") ∧
    deriveStatus true 0 = "partial" ∧
    (∀ n, deriveStatus true (n + 1) = "success") ∧
    (∀ (now : Nat) (cat : List Resource) (adapters : List (String × AdapterOutcome)),
      ∀ row ∈ (run_cycle now cat adapters).2,
        (row.status = "success" ∨ row.status = "partial" ∨ row.status = "failed") ∧
        getStatusColor row.status ≠ "#888") := by
  refine ⟨?_, ?_, rfl, ?_, ?_⟩
  · intro success n
    cases success with
    | false => exact Or.inr (Or.inr rfl)
    | true =>
      by_cases h : n = 0
      · exact Or.inr (Or.inl (by simp [deriveStatus, h]))
      · exact Or.inl (by simp [deriveStatus, h])
  · intro n; rfl
  · intro n; simp [deriveStatus]
  · intro now cat adapters row hrow
    have h3 := run_cycle_row_status now adapters cat row hrow
    refine ⟨h3, ?_⟩
    rcases h3 with h | h | h <;> rw [h] <;> simp [getStatusColor]

/-- The ScrapeLog row the witness cycle writes for the failing php
adapter. -/
def phpFailedRow : ScrapeLogRow :=
  { scraper_name := "php", status := "failed", resources_count := 0,
    error_message := some "network unreachable" }

/-- Witness for C6: the row written for a failing adapter carries one of
the three statuses and a recognized status color. -/
theorem scrape_log_status_derivation_witness :
    phpFailedRow ∈ (run_cycle 7 [] adapters3).2 ∧
    ((phpFailedRow.status = "success" ∨ phpFailedRow.status = "partial" ∨
      phpFailedRow.status = "failed") ∧
      getStatusColor phpFailedRow.status ≠ "#888") :=
  ⟨by decide, scrape_log_status_derivation.2.2.2.2 7 [] adapters3 phpFailedRow (by decide)⟩

/-- C7: upserting a Resource and then fetching it by file name returns a
record equal to it in source, file name, url and version, with `updated_at`
only ever advancing. -/
theorem upsert_roundtrip (now : Nat) (r : Resource) (cat : List Resource) :
    ∃ r2, get_by_filename (upsertAt now r cat) r.file_name = some r2 ∧
      r2.source = r.source ∧ r2.file_name = r.file_name ∧ r2.url = r.url ∧
      r2.version = r.version ∧ r.updated_at ≤ r2.updated_at :=
  ⟨stamp now r, get_upsert_same now r cat, rfl, rfl, rfl, rfl, Nat.le_max_left _ _⟩

/-! ## Suggested versions (spec 6, src/frontend/app/suggest_versions.txt) -/

/-- The distinct sources currently present in the catalog, in first
appearance order. -/
def sourcesOf (cat : List Resource) : List String :=
  (cat.map (fun r => r.source)).dedup

/-- Modelled from the spec: one line of the suggested-versions rendering —
a source together with its `latest()` version. -/
def suggestLine (cat : List Resource) (s : String) : String :=
  match latest cat s with
  | some r => s ++ "=" ++ r.version.getD ""
  | none => s ++ "="

/-- Modelled from the spec: the plain-text suggested-versions rendering,
one line per source's latest version, a pure projection of catalog state. -/
def renderSuggestVersions (cat : List Resource) : String :=
  String.intercalate "\n" ((sourcesOf cat).map (suggestLine cat))

/-- Modelled from the spec: the backend suggest-versions endpoint as a
state transformer over the catalog and the cache store; being a pure
projection, it returns the rendering and the state it was given. -/
def suggestEndpoint (state : List Resource × List (String × String)) :
    String × (List Resource × List (String × String)) :=
  (renderSuggestVersions state.1, state)

/-- GET handler of src/frontend/app/suggest_versions.txt/route.ts: the
backend body on a 2xx response, an error body with the backend status on a
non-ok response, and a 503 error body when the fetch throws — text/plain in
each case. -/
def suggestVersionsGET : BackendFetch → HttpTextResponse
  | .reachable st body =>
    if 200 ≤ st ∧ st < 300 then
      { status := 200, contentType := "text/plain; charset=utf-8", body := body }
    else
      { status := st, contentType := "text/plain; charset=utf-8",
        body := "# Error: Could not fetch versions\n" }
  | .unreachable =>
    { status := 503, contentType := "text/plain; charset=utf-8",
      body := "# Error: Backend unavailable\n" }

/-- C8: the suggested-versions output is a pure projection — the endpoint
returns the rendering of the catalog and leaves catalog and cache store
exactly as they were — and the GET /suggest_versions.txt handler answers
text/plain on every outcome: backend success, backend HTTP error and
backend unreachable. -/
theorem suggest_versions_pure :
    (∀ o : BackendFetch,
      (suggestVersionsGET o).contentType = "text/plain; charset=utf-8") ∧
    (∀ state : List Resource × List (String × String),
      suggestEndpoint state = (renderSuggestVersions state.1, state) ∧
      (suggestEndpoint state).2 = state) := by
  constructor
  · intro o
    cases o with
    | reachable st body =>
      by_cases h : 200 ≤ st ∧ st < 300 <;> simp [suggestVersionsGET, h]
    | unreachable => rfl
  · intro state
    exact ⟨rfl, rfl⟩

/-! ## Dashboard resources filtering
(src/frontend/app/dashboard/resources/page.tsx) -/

/-- The Resource shape of the dashboard resources page. -/
structure FrontendResource where
  file_name : String
  url : String
  version : String
  source : String
  updated_at : String
deriving DecidableEq, Repr

/-- JavaScript toLowerCase restricted to the ASCII range, applied
characterwise to a string's characters. -/
def lowerStr (s : String) : List Char :=
  s.data.map Char.toLower

/-- JavaScript String.includes: the needle occurs contiguously somewhere in
the haystack; the empty needle is always found. -/
def containsSub (needle : List Char) : List Char → Bool
  | [] => needle.isPrefixOf []
  | c :: t => needle.isPrefixOf (c :: t) || containsSub needle t

/-- The filter predicate of src/frontend/app/dashboard/resources/page.tsx,
filteredResources: the lowercased file name must contain the lowercased
filename filter, and the source must equal the source filter unless that
filter is empty. -/
def matchesFilters (filter sourceFilter : String) (r : FrontendResource) : Bool :=
  containsSub (lowerStr filter) (lowerStr r.file_name) &&
    (decide (sourceFilter = "") || decide (r.source = sourceFilter))

/-- The filtered resource list the dashboard resources page displays. -/
def filteredResources (resources : List FrontendResource)
    (filter sourceFilter : String) : List FrontendResource :=
  resources.filter (matchesFilters filter sourceFilter)

theorem containsSub_iff_found (needle : List Char) :
    ∀ hay : List Char, containsSub needle hay = true ↔ needle <:+: hay := by
  intro hay
  induction hay with
  | nil =>
    show needle.isPrefixOf [] = true ↔ _
    rw [List.isPrefixOf_iff_prefix, List.prefix_nil, List.infix_nil]
  | cons c t ih =>
    show (needle.isPrefixOf (c :: t) || containsSub needle t) = true ↔ _
    rw [Bool.or_eq_true, List.isPrefixOf_iff_prefix, ih, List.infix_cons_iff]

/-- C9: the dashboard filtering is a subsequence of the fetched list
(order kept, nothing duplicated) holding exactly the resources whose file
name contains the filename filter case-insensitively and whose source
matches the source filter when that filter is nonempty; with both filters
empty it is the whole list. -/
theorem filtered_resources_spec (resources : List FrontendResource)
    (filter sourceFilter : String) :
    (filteredResources resources filter sourceFilter).Sublist resources ∧
    (∀ r, r ∈ filteredResources resources filter sourceFilter ↔
      (r ∈ resources ∧ lowerStr filter <:+: lowerStr r.file_name ∧
        (sourceFilter = "" ∨ r.source = sourceFilter))) ∧
    (filter = "" → sourceFilter = "" →
      filteredResources resources filter sourceFilter = resources) := by
  refine ⟨List.filter_sublist resources, ?_, ?_⟩
  · intro r
    rw [filteredResources, List.mem_filter, matchesFilters, Bool.and_eq_true,
      Bool.or_eq_true, containsSub_iff_found]
    simp [and_assoc]
  · intro h1 h2
    subst h1; subst h2
    rw [filteredResources, List.filter_eq_self]
    intro r _
    rw [matchesFilters, Bool.and_eq_true, Bool.or_eq_true]
    refine ⟨?_, Or.inl (by simp)⟩
    rw [containsSub_iff_found]
    show lowerStr "" <:+: lowerStr r.file_name
    exact List.nil_infix

/-- A concrete fetched resource list for the filtering witness. -/
def frontList : List FrontendResource :=
  [{ file_name := "Nginx-1.27.4.tar.gz", url := "https://nginx.org/x",
     version := "1.27.4", source := "nginx", updated_at := "2025" },
   { file_name := "php-8.3.2.tar.gz", url := "https://php.net/y",
     version := "8.3.2", source := "php", updated_at := "2025" }]

/-- Witness for C9: with both filters empty the displayed list is the
fetched list itself. -/
theorem filtered_resources_spec_witness :
    filteredResources frontList "" "" = frontList :=
  (filtered_resources_spec frontList "" "").2.2 rfl rfl

/-! ## Dashboard live log console (src/unnamed/part_001) -/

/-- The LogMessage shape of the dashboard page; `type` is the optional
message kind used to filter out keep-alive pings. -/
structure LogMessage where
  level : String
  message : String
  scraper : Option String
  timestamp : Option String
  type : Option String
deriving DecidableEq, Repr

/-- A raw WebSocket event as the dashboard receives it: either data that
fails JSON.parse, or a parsed LogMessage. -/
inductive WsEvent where
  | malformed (raw : String)
  | parsed (msg : LogMessage)
deriving DecidableEq, Repr

/-- The onmessage handler of src/unnamed/part_001 connectWebSocket: a parse
failure is caught and ignored, a ping message returns early, anything else
is appended to the log list. -/
def onMessage (logs : List LogMessage) : WsEvent → List LogMessage
  | .malformed _ => logs
  | .parsed m => if m.type = some "ping" then logs else logs ++ [m]

/-- The log list after a sequence of WebSocket events, starting empty. -/
def displayedLogs (events : List WsEvent) : List LogMessage :=
  events.foldl onMessage []

/-- The messages an event contributes to the console: none for a parse
failure or a ping, itself otherwise. -/
def keepEvent : WsEvent → Option LogMessage
  | .malformed _ => none
  | .parsed m => if m.type = some "ping" then none else some m

theorem foldl_onMessage_eq (events : List WsEvent) :
    ∀ acc : List LogMessage,
      events.foldl onMessage acc = acc ++ events.filterMap keepEvent := by
  induction events with
  | nil => intro acc; simp
  | cons e rest ih =>
    intro acc
    rw [List.foldl_cons]
    cases e with
    | malformed raw =>
      rw [ih]
      rfl
    | parsed m =>
      by_cases h : m.type = some "ping"
      · rw [show onMessage acc (.parsed m) = acc by simp [onMessage, h], ih]
        have hk : keepEvent (.parsed m) = none := by simp [keepEvent, h]
        rw [List.filterMap_cons, hk]
      · rw [show onMessage acc (.parsed m) = acc ++ [m] by simp [onMessage, h], ih]
        have hk : keepEvent (.parsed m) = some m := by simp [keepEvent, h]
        rw [List.filterMap_cons, hk, List.append_assoc]
        rfl

/-- C10: the console shows exactly the received messages that parsed as
JSON and are not pings, in arrival order; a ping or a message that fails to
parse leaves the list unchanged. -/
theorem displayed_logs_spec :
    (∀ events : List WsEvent, displayedLogs events = events.filterMap keepEvent) ∧
    (∀ (logs : List LogMessage) (raw : String), onMessage logs (.malformed raw) = logs) ∧
    (∀ (logs : List LogMessage) (level message : String)
      (scraper timestamp : Option String),
      onMessage logs (.parsed
        { level := level, message := message, scraper := scraper,
          timestamp := timestamp, type := some "ping" }) = logs) := by
  refine ⟨?_, ?_, ?_⟩
  · intro events
    rw [displayedLogs, foldl_onMessage_eq events []]
    rfl
  · intro logs raw
    rfl
  · intro logs level message scraper timestamp
    simp [onMessage]

end MirrorOne
